import Mathlib

/-!
Verification of the statistical-analysis core of the classroom-assignment
repository: the Pareto-dominance extractor (`plot_pareto_front.py`), the
normality classifiers (`kolmogorov_smirnov_test.py`, `anderson_darling_test.py`)
and the omnibus / post-hoc comparison pipeline (`kruskal_wallis_test.py`,
`anova_test.py`).

Floating-point numbers are modelled as rationals.  Calls into scipy
(`kstest`, `anderson`, `kruskal`, `f_oneway`, `mannwhitneyu`, `ttest_ind`)
are modelled as oracle function parameters: the surrounding control flow,
guards, table lookups, corrections and significance decisions are translated
from the Python source.
-/

namespace ClassroomAssignment

/-! ### Pareto dominance, from `plot_pareto_front.py` -/

/-- A two-objective solution `(f1, f2)`: `f1` is minimized, `f2` maximized. -/
abbrev Sol := ℚ × ℚ

/-- `dominates solution_a solution_b`, from `plot_pareto_front.py`:
`f1_better and f2_better and (f1_strictly_better or f2_strictly_better)`. -/
def dominates (solution_a solution_b : Sol) : Bool :=
  (decide (solution_a.1 ≤ solution_b.1) && decide (solution_a.2 ≥ solution_b.2))
    && (decide (solution_a.1 < solution_b.1) || decide (solution_a.2 > solution_b.2))

/-- The inner loop of `get_non_dominated_solutions`: solution `a` at index `i`
is dominated when some solution at another index dominates it. -/
def isDominatedAt (solutions : List Sol) (i : Nat) (a : Sol) : Bool :=
  solutions.enum.any fun jb => decide (jb.1 ≠ i) && dominates jb.2 a

/-- `get_non_dominated_solutions` from `plot_pareto_front.py`: the O(n^2)
partition into (non-dominated, dominated) solutions, preserving input order. -/
def get_non_dominated_solutions (solutions : List Sol) : List Sol × List Sol :=
  ((solutions.enum.filter fun ia => ! isDominatedAt solutions ia.1 ia.2).map Prod.snd,
   (solutions.enum.filter fun ia => isDominatedAt solutions ia.1 ia.2).map Prod.snd)

/-! ### Basic lemmas about dominance -/

theorem dominates_irrefl (a : Sol) : dominates a a = false := by
  simp [dominates]

theorem dominates_trans {a b c : Sol} (hab : dominates a b = true)
    (hbc : dominates b c = true) : dominates a c = true := by
  simp only [dominates, Bool.and_eq_true, Bool.or_eq_true, decide_eq_true_eq] at *
  obtain ⟨⟨h1, h2⟩, h3⟩ := hab
  obtain ⟨⟨h4, h5⟩, h6⟩ := hbc
  refine ⟨⟨le_trans h1 h4, le_trans h5 h2⟩, ?_⟩
  rcases h3 with h | h
  · exact Or.inl (lt_of_lt_of_le h h4)
  · exact Or.inr (lt_of_le_of_lt h5 h)

theorem dominates_asymm {a b : Sol} (h : dominates a b = true) :
    dominates b a = false := by
  by_contra hc
  have hba : dominates b a = true := by
    cases hh : dominates b a
    · exact absurd hh hc
    · rfl
  have := dominates_trans h hba
  rw [dominates_irrefl] at this
  exact Bool.false_ne_true this

/-- Membership in `enum` determines the element at that index. -/
theorem enum_mem_getElem? {l : List Sol} {i : Nat} {a : Sol}
    (h : (i, a) ∈ l.enum) : l[i]? = some a :=
  (List.mem_enum_iff_getElem?.mp h)

/-- Every member of a list occurs at some index of its enumeration. -/
theorem exists_mem_enum {l : List Sol} {a : Sol} (h : a ∈ l) :
    ∃ i, (i, a) ∈ l.enum := by
  obtain ⟨i, hi⟩ := List.getElem?_of_mem h
  exact ⟨i, List.mem_enum_iff_getElem?.mpr hi⟩

/-- The index test in `isDominatedAt` is equivalent to a pure membership test:
since dominance is irreflexive, excluding the solution's own index does not
change the answer. -/
theorem isDominatedAt_iff {solutions : List Sol} {i : Nat} {a : Sol}
    (hmem : (i, a) ∈ solutions.enum) :
    isDominatedAt solutions i a = true ↔
      ∃ b ∈ solutions, dominates b a = true := by
  constructor
  · intro h
    simp only [isDominatedAt, List.any_eq_true, Bool.and_eq_true,
      decide_eq_true_eq] at h
    obtain ⟨⟨j, b⟩, hjb, _, hdom⟩ := h
    have : b ∈ solutions := by
      have := List.enum_map_snd solutions
      rw [← this]
      exact List.mem_map_of_mem Prod.snd hjb
    exact ⟨b, this, hdom⟩
  · rintro ⟨b, hb, hdom⟩
    simp only [isDominatedAt, List.any_eq_true, Bool.and_eq_true,
      decide_eq_true_eq]
    obtain ⟨j, hj⟩ := exists_mem_enum hb
    refine ⟨(j, b), hj, ?_, hdom⟩
    intro hji
    subst hji
    have h1 := enum_mem_getElem? hmem
    have h2 := enum_mem_getElem? hj
    rw [h1] at h2
    have : a = b := by injection h2
    subst this
    rw [dominates_irrefl] at hdom
    exact Bool.false_ne_true hdom

/-- Membership in the dominated output characterized by the input set. -/
theorem mem_dominated_iff {solutions : List Sol} {a : Sol} :
    a ∈ (get_non_dominated_solutions solutions).2 ↔
      a ∈ solutions ∧ ∃ b ∈ solutions, dominates b a = true := by
  constructor
  · intro h
    simp only [get_non_dominated_solutions, List.mem_map, List.mem_filter] at h
    obtain ⟨⟨i, a'⟩, ⟨hmem, hdom⟩, ha'⟩ := h
    simp only at ha'
    subst ha'
    have hin : a' ∈ solutions := by
      have := List.enum_map_snd solutions
      rw [← this]
      exact List.mem_map_of_mem Prod.snd hmem
    exact ⟨hin, (isDominatedAt_iff hmem).mp hdom⟩
  · rintro ⟨ha, hb⟩
    simp only [get_non_dominated_solutions, List.mem_map, List.mem_filter]
    obtain ⟨i, hi⟩ := exists_mem_enum ha
    exact ⟨(i, a), ⟨hi, (isDominatedAt_iff hi).mpr hb⟩, rfl⟩

/-- Membership in the non-dominated output characterized by the input set. -/
theorem mem_non_dominated_iff {solutions : List Sol} {a : Sol} :
    a ∈ (get_non_dominated_solutions solutions).1 ↔
      a ∈ solutions ∧ ∀ b ∈ solutions, dominates b a = false := by
  constructor
  · intro h
    simp only [get_non_dominated_solutions, List.mem_map, List.mem_filter,
      Bool.not_eq_true'] at h
    obtain ⟨⟨i, a'⟩, ⟨hmem, hdom⟩, ha'⟩ := h
    simp only at ha'
    subst ha'
    have hin : a' ∈ solutions := by
      have := List.enum_map_snd solutions
      rw [← this]
      exact List.mem_map_of_mem Prod.snd hmem
    refine ⟨hin, ?_⟩
    intro b hb
    cases hd : dominates b a'
    · rfl
    · exfalso
      have : isDominatedAt solutions i a' = true :=
        (isDominatedAt_iff hmem).mpr ⟨b, hb, hd⟩
      rw [this] at hdom
      exact Bool.false_ne_true hdom.symm
  · rintro ⟨ha, hnone⟩
    simp only [get_non_dominated_solutions, List.mem_map, List.mem_filter,
      Bool.not_eq_true']
    obtain ⟨i, hi⟩ := exists_mem_enum ha
    refine ⟨(i, a), ⟨hi, ?_⟩, rfl⟩
    cases hd : isDominatedAt solutions i a
    · rfl
    · exfalso
      obtain ⟨b, hb, hdom⟩ := (isDominatedAt_iff hi).mp hd
      rw [hnone b hb] at hdom
      exact Bool.false_ne_true hdom

/-- The two output lists together are a permutation of the input. -/
theorem pareto_perm (solutions : List Sol) :
    List.Perm ((get_non_dominated_solutions solutions).1 ++
      (get_non_dominated_solutions solutions).2) solutions := by
  have h1 : List.Perm
      ((solutions.enum.filter fun ia => ! isDominatedAt solutions ia.1 ia.2) ++
        (solutions.enum.filter fun ia => isDominatedAt solutions ia.1 ia.2))
      solutions.enum :=
    List.Perm.trans List.perm_append_comm
      (List.filter_append_perm
        (fun ia : Nat × Sol => isDominatedAt solutions ia.1 ia.2) solutions.enum)
  have h2 := h1.map Prod.snd
  rw [List.map_append] at h2
  simpa [get_non_dominated_solutions, List.enum_map_snd] using h2

/-- Every nonempty finite list has a member that no member of the list
dominates (a maximal element of the strict partial order `dominates`). -/
theorem exists_undominated_mem {l : List Sol} (hl : l ≠ []) :
    ∃ m ∈ l, ∀ c ∈ l, dominates c m = false := by
  induction l with
  | nil => exact absurd rfl hl
  | cons x xs ih =>
    rcases eq_or_ne xs [] with h | h
    · subst h
      refine ⟨x, List.mem_cons_self x [], ?_⟩
      intro c hc
      rcases List.mem_cons.mp hc with rfl | hc
      · exact dominates_irrefl c
      · exact absurd hc (List.not_mem_nil c)
    · obtain ⟨m, hm, hmax⟩ := ih h
      cases hxm : dominates x m
      · refine ⟨m, List.mem_cons_of_mem x hm, ?_⟩
        intro c hc
        rcases List.mem_cons.mp hc with rfl | hc
        · exact hxm
        · exact hmax c hc
      · refine ⟨x, List.mem_cons_self x xs, ?_⟩
        intro c hc
        rcases List.mem_cons.mp hc with rfl | hc
        · exact dominates_irrefl c
        · cases hcx : dominates c x
          · rfl
          · exfalso
            have hcm := dominates_trans hcx hxm
            rw [hmax c hc] at hcm
            exact Bool.false_ne_true hcm

/-- The example solution set of the specification:
`[(1,10),(2,9),(3,5),(2,9)]`. -/
def demoSolutions : List Sol := [(1, 10), (2, 9), (3, 5), (2, 9)]

/-- C1: the Pareto partition places a solution in `dominated` iff some other
solution in the full input dominates it (otherwise in `non_dominated`), the
two outputs together are a permutation of the input (multiset equality), and
the two outputs are disjoint. -/
theorem pareto_partition_correct (solutions : List Sol) :
    List.Perm ((get_non_dominated_solutions solutions).1 ++
        (get_non_dominated_solutions solutions).2) solutions
    ∧ (∀ a : Sol, a ∈ (get_non_dominated_solutions solutions).2 ↔
        a ∈ solutions ∧ ∃ b ∈ solutions, dominates b a = true)
    ∧ (∀ a : Sol, a ∈ (get_non_dominated_solutions solutions).1 ↔
        a ∈ solutions ∧ ∀ b ∈ solutions, dominates b a = false)
    ∧ (∀ a : Sol, a ∈ (get_non_dominated_solutions solutions).1 →
        a ∉ (get_non_dominated_solutions solutions).2) := by
  refine ⟨pareto_perm solutions, fun _ => mem_dominated_iff,
    fun _ => mem_non_dominated_iff, ?_⟩
  intro a h1 h2
  obtain ⟨_, hall⟩ := mem_non_dominated_iff.mp h1
  obtain ⟨_, b, hb, hdom⟩ := mem_dominated_iff.mp h2
  rw [hall b hb] at hdom
  exact Bool.false_ne_true hdom

/-- Witness for C1 evaluated on the specification's example input:
`(3,5)` lands in the dominated output, so some member of the input
dominates it. -/
theorem pareto_partition_correct_witness :
    ((3 : ℚ), (5 : ℚ)) ∈ demoSolutions ∧
      ∃ b ∈ demoSolutions, dominates b ((3 : ℚ), (5 : ℚ)) = true :=
  ((pareto_partition_correct demoSolutions).2.1 ((3 : ℚ), (5 : ℚ))).mp (by decide)

/-- C9: the two-objective dominance relation is irreflexive and asymmetric. -/
theorem dominance_irreflexive_asymmetric :
    (∀ a : Sol, dominates a a = false) ∧
      (∀ a b : Sol, dominates a b = true → dominates b a = false) :=
  ⟨dominates_irrefl, fun _ _ h => dominates_asymm h⟩

/-- Witness for C9 at a concrete dominating pair. -/
theorem dominance_irreflexive_asymmetric_witness :
    dominates ((3 : ℚ), (5 : ℚ)) ((2 : ℚ), (9 : ℚ)) = false :=
  dominance_irreflexive_asymmetric.2 ((2 : ℚ), (9 : ℚ)) ((3 : ℚ), (5 : ℚ)) (by decide)

/-- C4: every member of the dominated output is dominated by at least one
member of the non-dominated output (closure property). -/
theorem pareto_dominated_closure (solutions : List Sol) :
    ∀ a ∈ (get_non_dominated_solutions solutions).2,
      ∃ b ∈ (get_non_dominated_solutions solutions).1, dominates b a = true := by
  intro a ha
  obtain ⟨_, b0, hb0, hdom0⟩ := mem_dominated_iff.mp ha
  have hS : solutions.filter (fun b => dominates b a) ≠ [] :=
    List.ne_nil_of_mem (List.mem_filter.mpr ⟨hb0, hdom0⟩)
  obtain ⟨m, hmS, hmax⟩ := exists_undominated_mem hS
  have hm_sol : m ∈ solutions := (List.mem_filter.mp hmS).1
  have hm_dom : dominates m a = true := (List.mem_filter.mp hmS).2
  have hmax' : ∀ c ∈ solutions, dominates c m = false := by
    intro c hc
    cases hcm : dominates c m
    · rfl
    · exfalso
      have hca := dominates_trans hcm hm_dom
      have hcS : c ∈ solutions.filter (fun b => dominates b a) :=
        List.mem_filter.mpr ⟨hc, hca⟩
      rw [hmax c hcS] at hcm
      exact Bool.false_ne_true hcm
  exact ⟨m, mem_non_dominated_iff.mpr ⟨hm_sol, hmax'⟩, hm_dom⟩

/-- Witness for C4 on the specification's example input. -/
theorem pareto_dominated_closure_witness :
    ∃ b ∈ (get_non_dominated_solutions demoSolutions).1,
      dominates b ((3 : ℚ), (5 : ℚ)) = true :=
  pareto_dominated_closure demoSolutions ((3 : ℚ), (5 : ℚ)) (by decide)

/-! ### Descriptive statistics helpers

`np.mean` and the numerator of the sample variance.  The sources test
`np.std(data, ddof=1) == 0`; since `std = sqrt(varNum / (n - 1))`, that test
is equivalent to `varNum data = 0`, which keeps the embedding inside `ℚ`. -/

/-- `np.mean(data)` (division by zero yields `0` for the empty list, a case
the guarded call sites never reach). -/
def mean (data : List ℚ) : ℚ := data.sum / data.length

/-- The sum of squared deviations from the mean: `np.std(data, ddof=1) == 0`
holds exactly when `varNum data = 0`. -/
def varNum (data : List ℚ) : ℚ := (data.map fun x => (x - mean data) ^ 2).sum

theorem varNum_eq_zero_of_const {data : List ℚ} {c : ℚ}
    (h : ∀ x ∈ data, x = c) : varNum data = 0 := by
  rcases eq_or_ne data [] with rfl | hne
  · simp [varNum]
  · have hsum : data.sum = (data.length : ℚ) * c := by
      have := List.sum_eq_card_nsmul data c h
      simpa using this
    have hlen : (data.length : ℚ) ≠ 0 := by
      have : data.length ≠ 0 := fun h0 => hne (List.length_eq_zero.mp h0)
      exact_mod_cast this
    have hmean : mean data = c := by
      unfold mean
      rw [hsum, mul_comm, mul_div_assoc, div_self hlen, mul_one]
    unfold varNum
    have hmap : data.map (fun x => (x - mean data) ^ 2) =
        data.map (fun _ => (0 : ℚ)) := by
      apply List.map_congr_left
      intro x hx
      rw [hmean, h x hx]
      ring
    rw [hmap]
    simp

/-- A string starting with a nonempty literal is nonempty. -/
theorem concat3_ne_empty (pre mid suf : String) (h : pre.length ≠ 0) :
    pre ++ mid ++ suf ≠ "" := by
  intro he
  have := congrArg String.length he
  rw [String.length_append, String.length_append, String.length_empty] at this
  omega

/-! ### Kolmogorov-Smirnov classifier, from `kolmogorov_smirnov_test.py`

`perform_kolmogorov_smirnov_test`: `NaN` fields are modelled as `none`; the
call `stats.kstest((data - mean) / std, 'norm')` is modelled as the oracle
`kstestNorm` applied to the raw data (standardization composed into the
oracle).  The descriptive `mean`/`std` result fields are not modelled; no
claim refers to them. -/

structure KSVerdict where
  statistic : Option ℚ
  p_value : Option ℚ
  normal : Bool
  n : Nat
  note : Option String
deriving DecidableEq

def perform_kolmogorov_smirnov_test (kstestNorm : List ℚ → ℚ × ℚ)
    (data : List ℚ) (significance_level : ℚ) : KSVerdict :=
  if data.length < 3 then
    { statistic := none, p_value := none, normal := false, n := data.length,
      note := some ("Tamaño de muestra insuficiente (n=" ++
        toString data.length ++
        " < 3). Se requieren al menos 3 observaciones.") }
  else if varNum data = 0 then
    { statistic := none, p_value := none, normal := false, n := data.length,
      note := some "Todos los valores son iguales (std=0)" }
  else
    let sp := kstestNorm data
    { statistic := some sp.1, p_value := some sp.2,
      normal := decide (sp.2 ≥ significance_level), n := data.length,
      note := none }

/-! ### Anderson-Darling classifier, from `anderson_darling_test.py`

The per-group body of `perform_anderson_darling_test`.  The call
`stats.anderson(group, dist='norm')` is modelled as an oracle returning the
statistic together with scipy's `critical_values` (increasing) and
`significance_level` (`[15, 10, 5, 2.5, 1]`) arrays. -/

/-- `min(range(len(xs)), key=lambda i: abs(xs[i] - target))`: index of the
first element closest to `target`. -/
def argminAbsIdx (xs : List ℚ) (target : ℚ) : Nat :=
  match xs with
  | [] => 0
  | x :: rest =>
    (rest.enum.foldl
      (fun best jx =>
        if |jx.2 - target| < best.2 then (jx.1 + 1, |jx.2 - target|) else best)
      (0, |x - target|)).1

/-- The `for i in range(len(critical_values) - 1)` interpolation loop, on the
lists of adjacent pairs of critical values and significance levels. -/
def ad_interp_loop (statistic : ℚ) :
    List (ℚ × ℚ) → List (ℚ × ℚ) → Option ℚ
  | (cv1, cv2) :: cvrest, (s1, s2) :: srest =>
    if cv2 ≤ statistic ∧ statistic ≤ cv1 then
      some (if cv1 ≠ cv2 then
          s2 / 100 + (statistic - cv2) / (cv1 - cv2) * (s1 / 100 - s2 / 100)
        else s1 / 100)
    else ad_interp_loop statistic cvrest srest
  | _, _ => none

/-- The approximate p-value computation of `perform_anderson_darling_test`:
`0.01` when `statistic <= critical_values[-1]`, `0.15` when
`statistic >= critical_values[0]`, otherwise the interpolation loop (falling
back to the nearest tabulated alpha when the loop sets nothing). -/
def ad_p_value (critical_values significance_levels : List ℚ)
    (statistic actual_alpha : ℚ) : ℚ :=
  if statistic ≤ critical_values.getLastD 0 then 1 / 100
  else if statistic ≥ critical_values.headD 0 then 15 / 100
  else
    match ad_interp_loop statistic (critical_values.zip critical_values.tail)
        (significance_levels.zip significance_levels.tail) with
    | some p => p
    | none => actual_alpha

structure ADVerdict where
  statistic : Option ℚ
  critical_value : Option ℚ
  p_value : Option ℚ
  normal : Bool
  n : Nat
  note : Option String
deriving DecidableEq

def ad_classify_group (anderson : List ℚ → ℚ × List ℚ × List ℚ)
    (group : List ℚ) (significance_level : ℚ) : ADVerdict :=
  if group.length < 8 then
    { statistic := none, critical_value := none, p_value := none,
      normal := false, n := group.length,
      note := some ("Tamaño de muestra insuficiente (n=" ++
        toString group.length ++
        " < 8). Se requieren al menos 8 observaciones.") }
  else if varNum group = 0 then
    { statistic := none, critical_value := none, p_value := none,
      normal := false, n := group.length,
      note := some "Todos los valores son iguales (std=0)" }
  else
    let r := anderson group
    let statistic := r.1
    let critical_values := r.2.1
    let significance_levels := r.2.2
    let idx := argminAbsIdx significance_levels (significance_level * 100)
    let critical_value_actual := critical_values.getD idx 0
    let actual_alpha := significance_levels.getD idx 0 / 100
    { statistic := some statistic,
      critical_value := some critical_value_actual,
      p_value := some (ad_p_value critical_values significance_levels
        statistic actual_alpha),
      normal := decide (statistic ≤ critical_value_actual),
      n := group.length, note := none }

/-- scipy's Anderson-Darling critical values for the normal distribution
(large-`n` values, matching the `critical_levels` table hard-coded in the
source), listed in increasing order. -/
def scipyNormCriticalValues : List ℚ :=
  [576/1000, 656/1000, 787/1000, 918/1000, 1092/1000]

/-- scipy's `significance_level` array `[15, 10, 5, 2.5, 1]` (percent). -/
def scipySignificanceLevels : List ℚ := [15, 10, 5, 5/2, 1]

/-- Modelled from the spec: "when the statistic falls strictly between two
tabulated critical values, the corresponding p-value is obtained by linear
interpolation between the two bracketing significance levels".  `alpha1` and
`alpha2` are the significance levels tabulated at the bracketing critical
values `cv1 < statistic < cv2`. -/
def spec_interpolated_p (alpha1 alpha2 cv1 cv2 statistic : ℚ) : ℚ :=
  alpha1 + (statistic - cv1) / (cv2 - cv1) * (alpha2 - alpha1)

/-- C2 (refuting the claim): for an Anderson-Darling statistic of `0.7`,
strictly between the tabulated critical values `0.656` (alpha 10%) and
`0.787` (alpha 5%), the classifier reports the p-value `0.01` and not the
linear interpolation (about `0.0832`): the first branch
`statistic <= critical_values[-1]` compares against the largest tabulated
critical value, so the interpolation loop is unreachable. -/
theorem ad_p_value_not_interpolated :
    (656 : ℚ)/1000 < 7/10 ∧ (7 : ℚ)/10 < 787/1000 ∧
    (ad_classify_group
        (fun _ => (7/10, scipyNormCriticalValues, scipySignificanceLevels))
        [1, 2, 3, 4, 5, 6, 7, 8] (5/100)).p_value = some (1/100) ∧
    spec_interpolated_p (10/100) (5/100) (656/1000) (787/1000) (7/10) =
      109/1310 ∧
    (109 : ℚ)/1310 ≠ 1/100 := by
  refine ⟨by norm_num, by norm_num, ?_, by norm_num [spec_interpolated_p], by norm_num⟩
  norm_num [ad_classify_group, varNum, mean, ad_p_value,
    scipyNormCriticalValues, scipySignificanceLevels]

/-- C5: a sample whose values are all identical (zero sample standard
deviation) is classified as non-normal with a nonempty note by both the
Kolmogorov-Smirnov and the Anderson-Darling classifier. -/
theorem degenerate_sample_never_normal
    (kstestNorm : List ℚ → ℚ × ℚ) (anderson : List ℚ → ℚ × List ℚ × List ℚ)
    (data : List ℚ) (c alpha : ℚ) (h : ∀ x ∈ data, x = c) :
    ((perform_kolmogorov_smirnov_test kstestNorm data alpha).normal = false ∧
      ∃ s, (perform_kolmogorov_smirnov_test kstestNorm data alpha).note =
          some s ∧ s ≠ "") ∧
    ((ad_classify_group anderson data alpha).normal = false ∧
      ∃ s, (ad_classify_group anderson data alpha).note = some s ∧ s ≠ "") := by
  have hvar := varNum_eq_zero_of_const h
  constructor
  · by_cases hlt : data.length < 3
    · rw [perform_kolmogorov_smirnov_test, if_pos hlt]
      exact ⟨rfl, _, rfl, concat3_ne_empty _ _ _ (by decide)⟩
    · rw [perform_kolmogorov_smirnov_test, if_neg hlt, if_pos hvar]
      exact ⟨rfl, _, rfl, by decide⟩
  · by_cases hlt : data.length < 8
    · rw [ad_classify_group, if_pos hlt]
      exact ⟨rfl, _, rfl, concat3_ne_empty _ _ _ (by decide)⟩
    · rw [ad_classify_group, if_neg hlt, if_pos hvar]
      exact ⟨rfl, _, rfl, by decide⟩

/-- Witness for C5 on the constant sample `[1,1,1,1,1,1,1,1]` (n = 8, so both
classifiers reach the zero-variance guard). -/
theorem degenerate_sample_never_normal_witness :
    (perform_kolmogorov_smirnov_test (fun _ => (0, 0))
      [1, 1, 1, 1, 1, 1, 1, 1] (5/100)).normal = false ∧
    (ad_classify_group (fun _ => (0, [], []))
      [1, 1, 1, 1, 1, 1, 1, 1] (5/100)).normal = false :=
  ⟨(degenerate_sample_never_normal (fun _ => (0, 0)) (fun _ => (0, [], []))
      [1, 1, 1, 1, 1, 1, 1, 1] 1 (5/100) (by decide)).1.1,
   (degenerate_sample_never_normal (fun _ => (0, 0)) (fun _ => (0, [], []))
      [1, 1, 1, 1, 1, 1, 1, 1] 1 (5/100) (by decide)).2.1⟩

/-- C6: below the method minimum (n < 3 for Kolmogorov-Smirnov, n < 8 for
Anderson-Darling) the classifier fails soft: non-normal verdict with a
nonempty explanatory note, without running the test (statistic is NaN). -/
theorem small_sample_fails_soft
    (kstestNorm : List ℚ → ℚ × ℚ) (anderson : List ℚ → ℚ × List ℚ × List ℚ)
    (data : List ℚ) (alpha : ℚ) :
    (data.length < 3 →
      (perform_kolmogorov_smirnov_test kstestNorm data alpha).normal = false ∧
      (perform_kolmogorov_smirnov_test kstestNorm data alpha).statistic = none ∧
      ∃ s, (perform_kolmogorov_smirnov_test kstestNorm data alpha).note =
          some s ∧ s ≠ "") ∧
    (data.length < 8 →
      (ad_classify_group anderson data alpha).normal = false ∧
      (ad_classify_group anderson data alpha).statistic = none ∧
      ∃ s, (ad_classify_group anderson data alpha).note = some s ∧ s ≠ "") := by
  constructor
  · intro hlt
    rw [perform_kolmogorov_smirnov_test, if_pos hlt]
    exact ⟨rfl, rfl, _, rfl, concat3_ne_empty _ _ _ (by decide)⟩
  · intro hlt
    rw [ad_classify_group, if_pos hlt]
    exact ⟨rfl, rfl, _, rfl, concat3_ne_empty _ _ _ (by decide)⟩

/-- Witness for C6 on the two-element sample `[1, 2]`. -/
theorem small_sample_fails_soft_witness :
    (perform_kolmogorov_smirnov_test (fun _ => (0, 0))
      [1, 2] (5/100)).normal = false ∧
    (ad_classify_group (fun _ => (0, [], [])) [1, 2] (5/100)).normal = false :=
  ⟨((small_sample_fails_soft (fun _ => (0, 0)) (fun _ => (0, [], []))
      [1, 2] (5/100)).1 (by decide)).1,
   ((small_sample_fails_soft (fun _ => (0, 0)) (fun _ => (0, [], []))
      [1, 2] (5/100)).2 (by decide)).1⟩

/-! ### Kruskal-Wallis pipeline, from `kruskal_wallis_test.py`

`scipy.stats.kruskal` and `scipy.stats.mannwhitneyu` are modelled as oracles
returning `(statistic, p_value)`; since the oracles are total, the
`except` branches of the source are unreachable in the model.  The
per-group descriptive statistics (`group_stats`) are not modelled; no claim
refers to them. -/

/-- `itertools.combinations(l, 2)`: all unordered pairs, in order. -/
def pairs {α : Type} : List α → List (α × α)
  | [] => []
  | x :: xs => (xs.map fun y => (x, y)) ++ pairs xs

structure KWPair where
  group1 : String
  group2 : String
  statistic : ℚ
  p_value : ℚ
  p_value_corrected : ℚ
  significant : Bool
  correction : String
deriving DecidableEq

/-- `perform_posthoc_tests` from `kruskal_wallis_test.py`.  Python dictionary
access `groups_data[name]` is modelled as association-list lookup with
default `[]` (callers pass `group_names` drawn from the dictionary keys). -/
def perform_posthoc_tests (mwu : List ℚ → List ℚ → ℚ × ℚ)
    (groups_data : List (String × List ℚ)) (group_names : List String)
    (alpha : ℚ) (correction : String) : List KWPair :=
  let comparisons := pairs group_names
  let n_comparisons := comparisons.length
  comparisons.filterMap fun gg =>
    let data1 := (groups_data.lookup gg.1).getD []
    let data2 := (groups_data.lookup gg.2).getD []
    if data1.length = 0 ∨ data2.length = 0 then none
    else
      let sp := mwu data1 data2
      let p_value_corrected :=
        if correction = "bonferroni" then min (sp.2 * (n_comparisons : ℚ)) 1
        else if correction = "holm" then min (sp.2 * (n_comparisons : ℚ)) 1
        else sp.2
      some { group1 := gg.1, group2 := gg.2, statistic := sp.1,
             p_value := sp.2, p_value_corrected := p_value_corrected,
             significant := decide (p_value_corrected < alpha),
             correction := correction }

structure KWResult where
  factor : String
  statistic : Option ℚ
  p_value : Option ℚ
  significant : Bool
  groups : Nat
  group_names : Option (List String)
  alpha : Option ℚ
  note : Option String
deriving DecidableEq

/-- `perform_kruskal_wallis_test` from `kruskal_wallis_test.py`. -/
def perform_kruskal_wallis_test (kruskalO : List (List ℚ) → ℚ × ℚ)
    (groups_data : List (String × List ℚ)) (factor_name : String)
    (alpha : ℚ) : KWResult :=
  let valid := groups_data.filter fun nd => decide (0 < nd.2.length)
  if valid.length < 2 then
    { factor := factor_name, statistic := none, p_value := none,
      significant := false, groups := valid.length, group_names := none,
      alpha := none,
      note := some "Se requieren al menos 2 grupos para realizar el test" }
  else
    let sp := kruskalO (valid.map Prod.snd)
    { factor := factor_name, statistic := some sp.1, p_value := some sp.2,
      significant := decide (sp.2 < alpha), groups := valid.length,
      group_names := some (valid.map Prod.fst), alpha := some alpha,
      note := none }

/-! ### ANOVA pipeline, from `anova_test.py`

`scipy.stats.f_oneway` and `scipy.stats.ttest_ind` are modelled as oracles
returning `(statistic, p_value)`.  The per-group descriptive statistics are
not modelled; no claim refers to them. -/

structure AnovaPair where
  grupo1 : String
  grupo2 : String
  diferencia : ℚ
  p_value : ℚ
  p_value_corregido : ℚ
  significativo : Bool
deriving DecidableEq

/-- `perform_bonferroni_correction` from `anova_test.py`: pairwise t-tests
with Bonferroni correction, over the non-empty groups. -/
def perform_bonferroni_correction (ttest : List ℚ → List ℚ → ℚ × ℚ)
    (groups : List (List ℚ)) (group_names : List String) : List AnovaPair :=
  let valid := (groups.zip group_names).filter fun gn => decide (0 < gn.1.length)
  if valid.length < 2 then []
  else
    let n_comparisons := valid.length * (valid.length - 1) / 2
    let alpha_corrected : ℚ :=
      if 0 < n_comparisons then (5/100 : ℚ) / (n_comparisons : ℚ) else 5/100
    (pairs valid).map fun vw =>
      let sp := ttest vw.1.1 vw.2.1
      { grupo1 := vw.1.2, grupo2 := vw.2.2,
        diferencia := mean vw.1.1 - mean vw.2.1,
        p_value := sp.2,
        p_value_corregido := min (sp.2 * (n_comparisons : ℚ)) 1,
        significativo := decide (sp.2 < alpha_corrected) }

structure AnovaResult where
  metric : String
  error : Option String
  f_statistic : Option ℚ
  p_value : Option ℚ
  significant : Option Bool
  alpha : Option ℚ
  groups : Option (List String)
deriving DecidableEq

/-- `perform_one_way_anova` from `anova_test.py`.  The error branch returns a
dictionary holding only `error` and `metric`; absent dictionary keys are
modelled as `none`. -/
def perform_one_way_anova (fOneway : List (List ℚ) → ℚ × ℚ)
    (groups : List (List ℚ)) (group_names : List String)
    (metric_name : String) : AnovaResult :=
  let valid := (groups.zip group_names).filter fun gn => decide (0 < gn.1.length)
  if valid.length < 2 then
    { metric := metric_name,
      error := some ("Se necesitan al menos 2 grupos para ANOVA. Solo se encontraron "
        ++ toString valid.length ++ " grupos válidos."),
      f_statistic := none, p_value := none, significant := none,
      alpha := none, groups := none }
  else
    let sp := fOneway (valid.map Prod.fst)
    { metric := metric_name, error := none, f_statistic := some sp.1,
      p_value := some sp.2, significant := some (decide (sp.2 < 5/100)),
      alpha := some (5/100), groups := some (valid.map Prod.snd) }

/-! ### Lemmas about pairs, lookup and the Bonferroni correction -/

theorem two_mul_length_pairs {α : Type} (l : List α) :
    2 * (pairs l).length + l.length = l.length * l.length := by
  induction l with
  | nil => simp [pairs]
  | cons x xs ih =>
    simp only [pairs, List.length_append, List.length_map, List.length_cons]
    calc 2 * (xs.length + (pairs xs).length) + (xs.length + 1)
        = (2 * (pairs xs).length + xs.length) + (2 * xs.length + 1) := by ring
      _ = xs.length * xs.length + (2 * xs.length + 1) := by rw [ih]
      _ = (xs.length + 1) * (xs.length + 1) := by ring

theorem length_pairs {α : Type} (l : List α) :
    (pairs l).length = l.length * (l.length - 1) / 2 := by
  have h := two_mul_length_pairs l
  rcases Nat.eq_zero_or_pos l.length with h0 | hpos
  · rw [h0] at h ⊢
    omega
  · have h1 : l.length * (l.length - 1) = l.length * l.length - l.length := by
      rw [Nat.mul_sub_one]
    omega

theorem mem_pairs {α : Type} {l : List α} {p : α × α} (h : p ∈ pairs l) :
    p.1 ∈ l ∧ p.2 ∈ l := by
  induction l with
  | nil => simp [pairs] at h
  | cons x xs ih =>
    simp only [pairs, List.mem_append, List.mem_map] at h
    rcases h with ⟨y, hy, hp⟩ | h
    · subst hp
      exact ⟨List.mem_cons_self x xs, List.mem_cons_of_mem x hy⟩
    · obtain ⟨h1, h2⟩ := ih h
      exact ⟨List.mem_cons_of_mem x h1, List.mem_cons_of_mem x h2⟩

theorem lookup_length_ne_zero {l : List (String × List ℚ)} {g : String}
    (hne : ∀ nd ∈ l, nd.2 ≠ []) (hg : g ∈ l.map Prod.fst) :
    ((l.lookup g).getD []).length ≠ 0 := by
  induction l with
  | nil => simp at hg
  | cons kv rest ih =>
    obtain ⟨k, v⟩ := kv
    by_cases hk : g = k
    · subst hk
      have hv : v ≠ [] := hne (g, v) (List.mem_cons_self _ _)
      simp only [List.lookup, beq_self_eq_true, Option.getD_some]
      exact fun h0 => hv (List.length_eq_zero.mp h0)
    · have hbeq : (g == k) = false := beq_eq_false_iff_ne.mpr hk
      simp only [List.lookup, hbeq]
      refine ih (fun nd hnd => hne nd (List.mem_cons_of_mem _ hnd)) ?_
      simp only [List.map_cons, List.mem_cons] at hg
      exact hg.resolve_left hk

theorem length_filterMap_of_forall_isSome {α β : Type}
    {f : α → Option β} {l : List α} (h : ∀ a ∈ l, (f a).isSome) :
    (l.filterMap f).length = l.length := by
  induction l with
  | nil => simp
  | cons x xs ih =>
    have hx := h x (List.mem_cons_self x xs)
    cases hfx : f x with
    | none => rw [hfx] at hx; simp at hx
    | some b =>
      rw [List.filterMap_cons, hfx]
      simp only [List.length_cons]
      rw [ih fun a ha => h a (List.mem_cons_of_mem x ha)]

/-- `min(p * n, 1) < alpha` iff `p < alpha / n`, for `n ≥ 1` and
`alpha ≤ 1`: the two phrasings of the Bonferroni decision agree. -/
theorem min_mul_lt_iff {p alpha : ℚ} {n : ℕ} (hn : 0 < n) (halpha : alpha ≤ 1) :
    (min (p * (n : ℚ)) 1 < alpha) ↔ (p < alpha / (n : ℚ)) := by
  have hn' : (0 : ℚ) < (n : ℚ) := by exact_mod_cast hn
  rw [lt_div_iff₀ hn']
  rcases le_or_lt (p * (n : ℚ)) 1 with h | h
  · rw [min_eq_left h]
  · rw [min_eq_right h.le]
    constructor
    · intro h1; linarith
    · intro h2; linarith

/-- `p ≤ min(p * n, 1)` for `0 ≤ p ≤ 1` and `n ≥ 1`. -/
theorem le_min_mul {p : ℚ} {n : ℕ} (hn : 0 < n) (h0 : 0 ≤ p) (h1 : p ≤ 1) :
    p ≤ min (p * (n : ℚ)) 1 := by
  have hn' : (1 : ℚ) ≤ (n : ℚ) := by exact_mod_cast hn
  refine le_min ?_ h1
  nlinarith

/-- Erase the recorded correction label of a pairwise comparison. -/
def eraseCorrection (r : KWPair) : KWPair := { r with correction := "" }

/-- C10: requesting the `holm` correction produces exactly the same pairwise
comparisons as `bonferroni` — identical statistic, raw and corrected
p-values, and significance decisions — differing only in the recorded
correction label. -/
theorem holm_equals_bonferroni (mwu : List ℚ → List ℚ → ℚ × ℚ)
    (groups_data : List (String × List ℚ)) (group_names : List String)
    (alpha : ℚ) :
    (perform_posthoc_tests mwu groups_data group_names alpha "holm").map
        eraseCorrection =
      (perform_posthoc_tests mwu groups_data group_names alpha
        "bonferroni").map eraseCorrection ∧
    (∀ r ∈ perform_posthoc_tests mwu groups_data group_names alpha "holm",
      r.correction = "holm") ∧
    (∀ r ∈ perform_posthoc_tests mwu groups_data group_names alpha
        "bonferroni", r.correction = "bonferroni") := by
  refine ⟨?_, ?_, ?_⟩
  · unfold perform_posthoc_tests
    rw [List.map_filterMap, List.map_filterMap]
    apply List.filterMap_congr
    intro gg _
    by_cases hc : ((groups_data.lookup gg.1).getD []).length = 0 ∨
        ((groups_data.lookup gg.2).getD []).length = 0
    · simp only [hc, if_true]
    · simp only [hc, if_false, Option.map_some]
      simp [eraseCorrection]
  · intro r hr
    obtain ⟨gg, _, hfa⟩ := List.mem_filterMap.mp hr
    by_cases hc : ((groups_data.lookup gg.1).getD []).length = 0 ∨
        ((groups_data.lookup gg.2).getD []).length = 0
    · rw [if_pos hc] at hfa; cases hfa
    · rw [if_neg hc] at hfa
      injection hfa with hfa
      rw [← hfa]
  · intro r hr
    obtain ⟨gg, _, hfa⟩ := List.mem_filterMap.mp hr
    by_cases hc : ((groups_data.lookup gg.1).getD []).length = 0 ∨
        ((groups_data.lookup gg.2).getD []).length = 0
    · rw [if_pos hc] at hfa; cases hfa
    · rw [if_neg hc] at hfa
      injection hfa with hfa
      rw [← hfa]

/-- C3: for post-hoc analysis over k >= 2 non-empty groups, both the
non-parametric (`perform_posthoc_tests`, Mann-Whitney + Bonferroni) and the
parametric (`perform_bonferroni_correction`, t-tests + Bonferroni) paths emit
exactly `k*(k-1)/2` pairwise comparisons; every emitted comparison has
`corrected = min(raw * n_pairs, 1)` (hence `raw <= corrected <= 1`), and its
significance flag equals both `corrected < alpha` and `raw < alpha/n_pairs`. -/
theorem posthoc_bonferroni_correct
    (mwu ttest : List ℚ → List ℚ → ℚ × ℚ)
    (groups_data : List (String × List ℚ)) (group_names : List String)
    (groups : List (List ℚ)) (names2 : List String) (alpha : ℚ)
    (hnames : group_names = groups_data.map Prod.fst)
    (hk : 2 ≤ groups_data.length)
    (hne : ∀ nd ∈ groups_data, nd.2 ≠ [])
    (hmwu : ∀ d1 d2, 0 ≤ (mwu d1 d2).2 ∧ (mwu d1 d2).2 ≤ 1)
    (halpha1 : alpha ≤ 1)
    (hlen2 : groups.length = names2.length)
    (hk2 : 2 ≤ groups.length)
    (hne2 : ∀ g ∈ groups, g ≠ [])
    (httest : ∀ d1 d2, 0 ≤ (ttest d1 d2).2 ∧ (ttest d1 d2).2 ≤ 1) :
    ((perform_posthoc_tests mwu groups_data group_names alpha
          "bonferroni").length =
        groups_data.length * (groups_data.length - 1) / 2
      ∧ ∀ r ∈ perform_posthoc_tests mwu groups_data group_names alpha
          "bonferroni",
          r.p_value_corrected = min (r.p_value *
              ((groups_data.length * (groups_data.length - 1) / 2 : ℕ) : ℚ)) 1
            ∧ r.p_value ≤ r.p_value_corrected
            ∧ r.p_value_corrected ≤ 1
            ∧ r.significant = decide (r.p_value_corrected < alpha)
            ∧ r.significant = decide (r.p_value < alpha /
                ((groups_data.length * (groups_data.length - 1) / 2 : ℕ) : ℚ)))
    ∧ ((perform_bonferroni_correction ttest groups names2).length =
        groups.length * (groups.length - 1) / 2
      ∧ ∀ r ∈ perform_bonferroni_correction ttest groups names2,
          r.p_value_corregido = min (r.p_value *
              ((groups.length * (groups.length - 1) / 2 : ℕ) : ℚ)) 1
            ∧ r.p_value ≤ r.p_value_corregido
            ∧ r.p_value_corregido ≤ 1
            ∧ r.significativo = decide (r.p_value_corregido < (5/100 : ℚ))
            ∧ r.significativo = decide (r.p_value < (5/100 : ℚ) /
                ((groups.length * (groups.length - 1) / 2 : ℕ) : ℚ))) := by
  have hnp : (pairs group_names).length =
      groups_data.length * (groups_data.length - 1) / 2 := by
    rw [hnames, length_pairs, List.length_map]
  have hsome : ∀ gg ∈ pairs group_names,
      ¬ (((groups_data.lookup gg.1).getD []).length = 0 ∨
         ((groups_data.lookup gg.2).getD []).length = 0) := by
    intro gg hgg
    obtain ⟨h1, h2⟩ := mem_pairs hgg
    rw [hnames] at h1 h2
    push_neg
    exact ⟨lookup_length_ne_zero hne h1, lookup_length_ne_zero hne h2⟩
  have hzip : (groups.zip names2).length = groups.length := by
    rw [List.length_zip, hlen2, min_self]
  have hfilter : ((groups.zip names2).filter fun gn =>
      decide (0 < gn.1.length)) = groups.zip names2 := by
    apply List.filter_eq_self.mpr
    intro gn hgn
    obtain ⟨g, nm⟩ := gn
    have hg : g ∈ groups := (List.of_mem_zip hgn).1
    simp only [decide_eq_true_eq]
    exact List.length_pos.mpr (hne2 g hg)
  refine ⟨⟨?_, ?_⟩, ⟨?_, ?_⟩⟩
  · simp only [perform_posthoc_tests]
    rw [length_filterMap_of_forall_isSome, hnp]
    intro gg hgg
    rw [if_neg (hsome gg hgg)]
    rfl
  · intro r hr
    simp only [perform_posthoc_tests] at hr
    obtain ⟨gg, hgg, hfa⟩ := List.mem_filterMap.mp hr
    rw [if_neg (hsome gg hgg)] at hfa
    injection hfa with h
    obtain ⟨hp0, hp1⟩ := hmwu ((groups_data.lookup gg.1).getD [])
      ((groups_data.lookup gg.2).getD [])
    have hMpos : 0 < (pairs group_names).length := by
      have hmul : 2 * 1 ≤ groups_data.length * (groups_data.length - 1) :=
        Nat.mul_le_mul hk (by omega)
      omega
    have hpv : r.p_value = (mwu ((groups_data.lookup gg.1).getD [])
        ((groups_data.lookup gg.2).getD [])).2 := by
      rw [← h]
    have hpc : r.p_value_corrected =
        min ((mwu ((groups_data.lookup gg.1).getD [])
          ((groups_data.lookup gg.2).getD [])).2 *
          ((pairs group_names).length : ℚ)) 1 := by
      rw [← h]
      simp
    have hsig : r.significant =
        decide (min ((mwu ((groups_data.lookup gg.1).getD [])
          ((groups_data.lookup gg.2).getD [])).2 *
          ((pairs group_names).length : ℚ)) 1 < alpha) := by
      rw [← h]
      simp
    refine ⟨?_, ?_, ?_, ?_, ?_⟩
    · rw [hpc, hpv, hnp]
    · rw [hpv, hpc]
      exact le_min_mul hMpos hp0 hp1
    · rw [hpc]
      exact min_le_right _ _
    · rw [hsig, hpc]
    · rw [hsig, hpv, hnp]
      exact decide_eq_decide.mpr (min_mul_lt_iff (by omega) halpha1)
  · simp only [perform_bonferroni_correction, hfilter]
    rw [if_neg (by rw [hzip]; omega), List.length_map, length_pairs, hzip]
  · intro r hr
    simp only [perform_bonferroni_correction, hfilter] at hr
    rw [if_neg (by rw [hzip]; omega)] at hr
    obtain ⟨vw, hvw, hrw⟩ := List.mem_map.mp hr
    obtain ⟨hp0, hp1⟩ := httest vw.1.1 vw.2.1
    have hM2 : (groups.zip names2).length *
        ((groups.zip names2).length - 1) / 2 =
        groups.length * (groups.length - 1) / 2 := by rw [hzip]
    have hN2pos : 0 < groups.length * (groups.length - 1) / 2 := by
      have hmul : 2 * 1 ≤ groups.length * (groups.length - 1) :=
        Nat.mul_le_mul hk2 (by omega)
      omega
    have hpv : r.p_value = (ttest vw.1.1 vw.2.1).2 := by
      rw [← hrw]
    have hpc : r.p_value_corregido = min ((ttest vw.1.1 vw.2.1).2 *
        ((groups.length * (groups.length - 1) / 2 : ℕ) : ℚ)) 1 := by
      rw [← hrw]
      simp only [hM2]
    have hsig5 : r.significativo = decide ((ttest vw.1.1 vw.2.1).2 <
        (5/100 : ℚ) / ((groups.length * (groups.length - 1) / 2 : ℕ) : ℚ)) := by
      rw [← hrw]
      simp only [hM2]
      rw [if_pos hN2pos]
    refine ⟨?_, ?_, ?_, ?_, ?_⟩
    · rw [hpc, hpv]
    · rw [hpv, hpc]
      exact le_min_mul hN2pos hp0 hp1
    · rw [hpc]
      exact min_le_right _ _
    · rw [hsig5, hpc]
      exact (decide_eq_decide.mpr (min_mul_lt_iff hN2pos (by norm_num))).symm
    · rw [hsig5, hpv]

/-- Witness for C3 on three non-empty groups for the non-parametric path and
two for the parametric one (3 and 1 pairwise comparisons). -/
theorem posthoc_bonferroni_correct_witness :
    (perform_posthoc_tests (fun _ _ => ((0 : ℚ), (1 : ℚ)/2))
      [("a", [1]), ("b", [2]), ("c", [3])] ["a", "b", "c"] (1/20)
      "bonferroni").length = 3 ∧
    (perform_bonferroni_correction (fun _ _ => ((0 : ℚ), (1 : ℚ)/2))
      [[1], [2]] ["x", "y"]).length = 1 := by
  have h := posthoc_bonferroni_correct (fun _ _ => ((0 : ℚ), (1 : ℚ)/2))
    (fun _ _ => ((0 : ℚ), (1 : ℚ)/2))
    [("a", [1]), ("b", [2]), ("c", [3])] ["a", "b", "c"]
    [[1], [2]] ["x", "y"] (1/20)
    (by decide) (by decide) (by decide)
    (fun _ _ => by norm_num) (by norm_num)
    (by decide) (by decide) (by decide)
    (fun _ _ => by norm_num)
  exact ⟨h.1.1, h.2.1⟩

/-- C7 counterexample: with a single non-empty group, `perform_one_way_anova`
returns its structured error record, whose `significant` key is absent
(modelled `none`), not `false` as the claim states. -/
theorem anova_invalid_comparison_counterexample :
    ((perform_one_way_anova (fun _ => ((0 : ℚ), (0 : ℚ)))
      [[1]] ["a"] "m").error).isSome = true ∧
    (perform_one_way_anova (fun _ => ((0 : ℚ), (0 : ℚ)))
      [[1]] ["a"] "m").significant ≠ some false := by
  constructor
  · rfl
  · decide

/-- C7 (amended): with fewer than 2 non-empty groups both omnibus tests
return a structured error result instead of running the test: the
Kruskal-Wallis result has `significant = false`, no statistic or p-value and
a nonempty note; the ANOVA result has no significance flag, no statistic or
p-value, and a nonempty error message. -/
theorem omnibus_invalid_comparison_structured
    (kruskalO fOneway : List (List ℚ) → ℚ × ℚ)
    (groups_data : List (String × List ℚ)) (groups : List (List ℚ))
    (group_names : List String) (factor_name metric_name : String) (alpha : ℚ)
    (hkw : (groups_data.filter fun nd => decide (0 < nd.2.length)).length < 2)
    (han : ((groups.zip group_names).filter fun gn =>
      decide (0 < gn.1.length)).length < 2) :
    ((perform_kruskal_wallis_test kruskalO groups_data factor_name
        alpha).significant = false
      ∧ (perform_kruskal_wallis_test kruskalO groups_data factor_name
          alpha).statistic = none
      ∧ (perform_kruskal_wallis_test kruskalO groups_data factor_name
          alpha).p_value = none
      ∧ ∃ s, (perform_kruskal_wallis_test kruskalO groups_data factor_name
          alpha).note = some s ∧ s ≠ "")
    ∧ ((perform_one_way_anova fOneway groups group_names
        metric_name).significant = none
      ∧ (perform_one_way_anova fOneway groups group_names
          metric_name).f_statistic = none
      ∧ (perform_one_way_anova fOneway groups group_names
          metric_name).p_value = none
      ∧ ∃ s, (perform_one_way_anova fOneway groups group_names
          metric_name).error = some s ∧ s ≠ "") := by
  constructor
  · simp only [perform_kruskal_wallis_test]
    rw [if_pos hkw]
    exact ⟨rfl, rfl, rfl, _, rfl, by decide⟩
  · simp only [perform_one_way_anova]
    rw [if_pos han]
    exact ⟨rfl, rfl, rfl, _, rfl, concat3_ne_empty _ _ _ (by decide)⟩

/-- Witness for C7 with one non-empty group on each path. -/
theorem omnibus_invalid_comparison_structured_witness :
    (perform_kruskal_wallis_test (fun _ => ((0 : ℚ), (0 : ℚ)))
      [("a", [1])] "f" (1/20)).significant = false ∧
    (perform_one_way_anova (fun _ => ((0 : ℚ), (0 : ℚ)))
      [[1]] ["a"] "m").significant = none := by
  have h := omnibus_invalid_comparison_structured
    (fun _ => ((0 : ℚ), (0 : ℚ))) (fun _ => ((0 : ℚ), (0 : ℚ)))
    [("a", [1])] [[1]] ["a"] "f" "m" (1/20) (by decide) (by decide)
  exact ⟨h.1.1, h.2.1⟩

/-- C8: every successfully computed omnibus result satisfies
`significant == (p_value < alpha)` — for the Kruskal-Wallis path against the
caller's alpha (recorded in the result), for the ANOVA path against its
hard-coded alpha of 0.05 (recorded in the result). -/
theorem omnibus_significant_iff_p_lt_alpha
    (kruskalO fOneway : List (List ℚ) → ℚ × ℚ)
    (groups_data : List (String × List ℚ)) (groups : List (List ℚ))
    (group_names : List String) (factor_name metric_name : String) (alpha : ℚ)
    (hkw : 2 ≤ (groups_data.filter fun nd => decide (0 < nd.2.length)).length)
    (han : 2 ≤ ((groups.zip group_names).filter fun gn =>
      decide (0 < gn.1.length)).length) :
    (∃ p, (perform_kruskal_wallis_test kruskalO groups_data factor_name
          alpha).p_value = some p
        ∧ (perform_kruskal_wallis_test kruskalO groups_data factor_name
            alpha).alpha = some alpha
        ∧ (perform_kruskal_wallis_test kruskalO groups_data factor_name
            alpha).significant = decide (p < alpha))
    ∧ (∃ p, (perform_one_way_anova fOneway groups group_names
          metric_name).p_value = some p
        ∧ (perform_one_way_anova fOneway groups group_names
            metric_name).alpha = some (5/100 : ℚ)
        ∧ (perform_one_way_anova fOneway groups group_names
            metric_name).significant = some (decide (p < (5/100 : ℚ)))) := by
  constructor
  · simp only [perform_kruskal_wallis_test]
    rw [if_neg (by omega)]
    exact ⟨_, rfl, rfl, rfl⟩
  · simp only [perform_one_way_anova]
    rw [if_neg (by omega)]
    exact ⟨_, rfl, rfl, rfl⟩

/-- Witness for C8 with two non-empty groups on each path. -/
theorem omnibus_significant_iff_p_lt_alpha_witness :
    (perform_kruskal_wallis_test (fun _ => ((1 : ℚ), (1 : ℚ)/2))
      [("a", [1]), ("b", [2])] "f" (1/20)).alpha = some (1/20) ∧
    (perform_one_way_anova (fun _ => ((1 : ℚ), (1 : ℚ)/2))
      [[1], [2]] ["a", "b"] "m").alpha = some (5/100 : ℚ) := by
  have h := omnibus_significant_iff_p_lt_alpha
    (fun _ => ((1 : ℚ), (1 : ℚ)/2)) (fun _ => ((1 : ℚ), (1 : ℚ)/2))
    [("a", [1]), ("b", [2])] [[1], [2]] ["a", "b"] "f" "m" (1/20)
    (by decide) (by decide)
  obtain ⟨⟨p, _, h2, _⟩, ⟨q, _, g2, _⟩⟩ := h
  exact ⟨h2, g2⟩

/-- Witness for C10 on two concrete non-empty groups. -/
theorem holm_equals_bonferroni_witness :
    (perform_posthoc_tests (fun _ _ => ((0 : ℚ), (1 : ℚ)/2))
        [("a", [1]), ("b", [2])] ["a", "b"] (1/20) "holm").map
        eraseCorrection =
      (perform_posthoc_tests (fun _ _ => ((0 : ℚ), (1 : ℚ)/2))
        [("a", [1]), ("b", [2])] ["a", "b"] (1/20) "bonferroni").map
        eraseCorrection :=
  (holm_equals_bonferroni (fun _ _ => ((0 : ℚ), (1 : ℚ)/2))
    [("a", [1]), ("b", [2])] ["a", "b"] (1/20)).1
